import Mathlib

/-!
# Verification of the cli-core command framework

Shallow embedding of the core of the `nexical/cli-core` TypeScript package:

* command discovery (`src/CommandLoader.ts`, `CommandLoader.scan`),
* routing and dispatch (`src/CLI.ts`, `CLI.start`: the leaf-command and
  namespace-command action closures, the global `--help` interception),
* help rendering (`src/commands/help.ts`, `HelpCommand.printCommandHelp`
  usage resolution), and
* command initialization (`src/BaseCommand.ts`, `BaseCommand.init`, plus the
  alternate `BaseCommand.runInit` variant shipped in the repository).

JavaScript strings are modelled through their character data (`String.data`),
JavaScript runtime values that flow through the option object by the `Value`
type, and a parsed options object by an association list with JS property
semantics (first binding wins on lookup, in-place overwrite on assignment).
Side effects of the dispatch closures (stderr prints, help renders, scheduled
and synchronous `process.exit` calls, and the final `runCommand` invocation)
are reified in a `DispatchResult` record.
-/

namespace CliCore

/-- The single-quote character as a string (used to build error messages). -/
def sq : String := "\x27"

/-- Model of JS `String.prototype.endsWith`, computed on character data. -/
def sEndsWith (s suf : String) : Bool :=
  List.isPrefixOf suf.data.reverse s.data.reverse

/-- Model of JS `String.prototype.startsWith`, computed on character data. -/
def sStartsWith (s pre : String) : Bool :=
  List.isPrefixOf pre.data s.data

/-- Model of JS `s.slice(0, -3)`: drop the final three characters.  The source
uses this shape twice: to strip a trailing `...` variadic marker from an
argument name, and (via `path.basename(file, path.extname(file))`) to strip a
`.ts`/`.js` extension from a file name. -/
def dropLast3 (s : String) : String :=
  String.mk (s.data.take (s.data.length - 3))

/-- Does the pattern occur as a contiguous sublist? (executable, structural) -/
def hasSubList [BEq α] (p : List α) : List α → Bool
  | [] => p.isEmpty
  | a :: rest => List.isPrefixOf p (a :: rest) || hasSubList p rest

/-- Substring test on strings, via character data. -/
def strContains (s pat : String) : Bool :=
  hasSubList pat.data s.data

/-- JS runtime values that appear in a parsed options object: strings,
booleans, and arrays (from variadic positionals). -/
inductive Value where
  | str (s : String)
  | bool (b : Bool)
  | list (elems : List Value)

/-- JS truthiness of a `Value` (`''` and `false` are falsy; arrays truthy). -/
def vTruthy : Value → Bool
  | .str s => !(s == "")
  | .bool b => b
  | .list _ => true

/-- A parsed options object: ordered association list of properties. -/
abbrev Options := List (String × Value)

/-- Property read `options[k]`: first binding wins. -/
def getOpt (o : Options) (k : String) : Option Value :=
  (o.find? (fun p => p.fst == k)).map (fun p => p.snd)

/-- JS truthiness of `options[k]` (absent property is `undefined`, falsy). -/
def jsTruthy : Option Value → Bool
  | none => false
  | some v => vTruthy v

/-- Property write `options[k] = v`: overwrite in place, else append. -/
def setOpt : Options → String → Value → Options
  | [], k, v => [(k, v)]
  | (k0, v0) :: rest, k, v =>
    if k0 == k then (k0, v) :: rest else (k0, v0) :: setOpt rest k v

/-- `CommandArg` of `src/CommandInterface.ts`: a positional argument spec.
A trailing `...` on `name` marks it variadic. -/
structure ArgumentSpec where
  name : String
  required : Bool := false
  description : Option String := none
  dflt : Option Value := none

/-- `CommandOption` of `src/CommandInterface.ts`: a flag option spec
(`name` is the flag form, e.g. `"--dry-run"` or `"--repo <url>"`). -/
structure OptionSpec where
  name : String
  description : Option String := none
  dflt : Option Value := none

/-- `CommandDefinition` of `src/CommandInterface.ts`. -/
structure CommandDefinition where
  args : Option (List ArgumentSpec) := none
  options : Option (List OptionSpec) := none

/-- The static side of a command class (`BaseCommand` subclass) that the
router and the help renderer read. `tag` stands for class identity. -/
structure CommandClass where
  usage : String := ""
  description : String := ""
  args : Option CommandDefinition := none
  requiresProject : Bool := false
  tag : Nat := 0

/-- A registry entry produced by `CommandLoader.scan`
(`{ command, path, instance, class }`; the ephemeral `instance` is not
modelled, `path` is kept as its segment list). -/
structure LoadedCommand where
  command : String
  path : List String := []
  cls : CommandClass

/-- The source's `const name = isVariadic ? arg.name.slice(0, -3) : arg.name`:
runtime identifier of a positional argument spec. -/
def stripName (a : ArgumentSpec) : String :=
  if sEndsWith a.name "..." then dropLast3 a.name else a.name

/-! ## Command discovery (`src/CommandLoader.ts`, `scan`) -/

/-- Outcome of dynamically importing a candidate command module:
the import may reject, or resolve to a module whose `default` export is
absent/null (`loads none`) or a usable class (`loads (some cls)`). -/
inductive ModuleLoad where
  | throws
  | loads (dflt : Option CommandClass)

/-- A file-system tree under a search root, as `scan` observes it via
`fs.readdirSync`/`fs.statSync`: files carry the result of importing them. -/
inductive FSEntry where
  | file (name : String) (load : ModuleLoad)
  | dir (name : String) (children : List FSEntry)

/-- The `try { import } / if (CommandClass) push` tail of `scan`: a module
that fails to import or has a falsy `default` export is skipped (the failure
is logged); otherwise a registry entry is appended. -/
def mkFromLoad (parts pathSegs : List String) : ModuleLoad → List LoadedCommand
  | .throws => []
  | .loads none => []
  | .loads (some cls) =>
    [{ command := String.intercalate " " parts, path := pathSegs, cls := cls }]

/-- The per-file body of `scan`: extension filter
(`.ts`/`.js`, excluding `.d.ts`), base-name computation, and the
`index` handling (`index` maps to its directory chain; an `index` file with an
empty prefix is skipped via `continue`). -/
def scanFile (pfx pathAcc : List String) (name : String) (load : ModuleLoad) :
    List LoadedCommand :=
  if (sEndsWith name ".ts" || sEndsWith name ".js") && !(sEndsWith name ".d.ts") then
    let base := dropLast3 name
    if base != "index" then
      mkFromLoad (pfx ++ [base]) (pathAcc ++ [name]) load
    else if pfx.length == 0 then []
    else mkFromLoad pfx (pathAcc ++ [name]) load
  else []

mutual

/-- One entry of the depth-first traversal of `scan`: directories are recursed
into unconditionally with the directory name appended to the prefix. -/
def scanEntry (pfx pathAcc : List String) : FSEntry → List LoadedCommand
  | .file name load => scanFile pfx pathAcc name load
  | .dir d children => scanList (pfx ++ [d]) (pathAcc ++ [d]) children

/-- Sequential traversal of one directory listing: registration order is the
listing order (entries are awaited one after the other). -/
def scanList (pfx pathAcc : List String) : List FSEntry → List LoadedCommand
  | [] => []
  | e :: rest => scanEntry pfx pathAcc e ++ scanList pfx pathAcc rest

end

/-! ## Routing and dispatch (`src/CLI.ts`, `CLI.start`) -/

/-- Reified effects of one dispatch closure run.  `errors` are
`console.error` prints in order; `helps` the `runHelp` invocations (their
command-part argument); `scheduledExits` the `process.exit` calls scheduled
asynchronously via `.then(() => process.exit(1))`; `syncExit` a synchronous
`process.exit` that terminates the closure at once; `invoked` the
`runCommand` call (command parts plus the options object it receives), when
control reaches it. -/
structure DispatchResult where
  errors : List String := []
  helps : List (List String) := []
  scheduledExits : List Nat := []
  syncExit : Option Nat := none
  invoked : Option (List String × Options) := none

/-- Positional-argument mapping loop of the leaf-command action closure
(`argsDef.args.forEach` in `CLI.start`, case 1).  The `return` of the source
callback ends only the current iteration, so the recursion continues past a
missing required argument; its error print, help render and scheduled exit
are accumulated. -/
def mapSpecsLeaf (cmdParts : List String) (positionalArgs : List Value) :
    List ArgumentSpec → Nat → Options →
    Options × List String × List (List String) × List Nat
  | [], _, opts => (opts, [], [], [])
  | arg :: rest, index, opts =>
    let name := stripName arg
    match positionalArgs[index]? with
    | some val =>
      mapSpecsLeaf cmdParts positionalArgs rest (index + 1) (setOpt opts name val)
    | none =>
      if arg.required then
        let r := mapSpecsLeaf cmdParts positionalArgs rest (index + 1) opts
        (r.1, ("Missing required argument: " ++ name) :: r.2.1,
          cmdParts :: r.2.2.1, 1 :: r.2.2.2)
      else
        mapSpecsLeaf cmdParts positionalArgs rest (index + 1) opts

/-- Positional-argument mapping loop of the namespace action closure
(`CLI.start`, case 2): identical to the leaf loop except that a variadic spec
consumes the whole positional remainder (`positionalArgs.slice(index)`). -/
def mapSpecsNs (cmdParts : List String) (positionalArgs : List Value) :
    List ArgumentSpec → Nat → Options →
    Options × List String × List (List String) × List Nat
  | [], _, opts => (opts, [], [], [])
  | arg :: rest, index, opts =>
    let isVariadic := sEndsWith arg.name "..."
    let name := stripName arg
    match positionalArgs[index]? with
    | some val =>
      let assigned := if isVariadic then Value.list (positionalArgs.drop index) else val
      mapSpecsNs cmdParts positionalArgs rest (index + 1) (setOpt opts name assigned)
    | none =>
      if arg.required then
        let r := mapSpecsNs cmdParts positionalArgs rest (index + 1) opts
        (r.1, ("Missing required argument: " ++ name) :: r.2.1,
          cmdParts :: r.2.2.1, 1 :: r.2.2.2)
      else
        mapSpecsNs cmdParts positionalArgs rest (index + 1) opts

/-- Grammar registration string for a leaf command (`CLI.start`, case 1):
starting from the command token, every `ArgumentSpec` contributes an optional
bracket slot `[name]` / `[...name]` (the comment in the source: always
optional so `--help` passes validation; `required` is enforced manually). -/
def leafCommandName (cmdCommand : String) (argsDefOpt : Option CommandDefinition) :
    String :=
  let argsDef := argsDefOpt.getD {}
  match argsDef.args with
  | none => cmdCommand
  | some specs =>
    specs.foldl (fun acc arg =>
      let isVariadic := sEndsWith arg.name "..."
      let cleanName := if isVariadic then dropLast3 arg.name else arg.name
      acc ++ (if isVariadic then " [..." ++ cleanName ++ "]"
              else " [" ++ cleanName ++ "]")) cmdCommand

/-- The leaf-command action closure (`CLI.start`, case 1): help interception,
positional mapping into the options object, then `runCommand`. -/
def leafAction (cmdCommand : String) (argsDefOpt : Option CommandDefinition)
    (positionalArgs : List Value) (options : Options) : DispatchResult :=
  if jsTruthy (getOpt options "help") then
    { helps := [[cmdCommand]] }
  else
    let argsDef := argsDefOpt.getD {}
    match argsDef.args with
    | none => { invoked := some ([cmdCommand], options) }
    | some specs =>
      let r := mapSpecsLeaf [cmdCommand] positionalArgs specs 0 options
      { errors := r.2.1, helps := r.2.2.1, scheduledExits := r.2.2.2,
        invoked := some ([cmdCommand], r.1) }

/-- JS truthiness of the `subcommand` string argument (absent or `''` falsy). -/
def subTruthy : Option String → Bool
  | none => false
  | some s => !(s == "")

/-- The namespace action closure (`CLI.start`, case 2), registered for grammar
`<root> [subcommand] [...args]`: help interception, exact-path resolution of
the child (`Unknown subcommand` + synchronous exit 1 on failure), variadic
collapse of the raw positional array, copy of the options object, positional
mapping, then `runCommand` with command parts `[root, subcommand]`. -/
def namespaceAction (root : String) (cmds : List LoadedCommand)
    (subcommand : Option String) (rawArgs : List Value) (options : Options) :
    DispatchResult :=
  if !(subTruthy subcommand) || jsTruthy (getOpt options "help") then
    { helps := [[root] ++ (match subcommand with
        | some s => if s == "" then [] else [s]
        | none => [])] }
  else
    let sub := subcommand.getD ""
    let fullCommandName := root ++ " " ++ sub
    match cmds.find? (fun c => c.command == fullCommandName) with
    | none =>
      { errors := ["Unknown subcommand " ++ sq ++ sub ++ sq ++ " for " ++ sq ++ root ++ sq],
        syncExit := some 1 }
    | some cmd =>
      let argsDef := cmd.cls.args.getD {}
      let positionalArgs := match rawArgs with
        | Value.list l :: _ => l
        | _ => rawArgs
      let childOptions := options
      let cmdParts := [root, sub]
      match argsDef.args with
      | none => { invoked := some (cmdParts, childOptions) }
      | some specs =>
        let r := mapSpecsNs cmdParts positionalArgs specs 0 childOptions
        { errors := r.2.1, helps := r.2.2.1, scheduledExits := r.2.2.2,
          invoked := some (cmdParts, r.1) }

/-- Result of the pre-parse phase at the end of `CLI.start`: the global help
interception and whether `cli.parse()` is reached. -/
structure InterceptResult where
  helps : List (List String) := []
  exitCode : Option Nat := none
  parsed : Bool := false

/-- Global help interception of `CLI.start`: if the raw `process.argv`
contains `--help` or `-h` and `argv.slice(2)` holds no token that does not
start with a dash, global help is rendered and the process exits 0 before
`cli.parse()` is ever called. -/
def globalHelpIntercept (argv : List String) : InterceptResult :=
  if argv.contains "--help" || argv.contains "-h" then
    let args := (argv.drop 2).filter (fun a => !(sStartsWith a "-"))
    if args.length == 0 then { helps := [[]], exitCode := some 0, parsed := false }
    else { parsed := true }
  else { parsed := true }

/-! ## Help rendering (`src/commands/help.ts`, `printCommandHelp`) -/

/-- Usage resolution of `printCommandHelp`: the class's static `usage`
(default `''`, falsy) first, then the parser record's `rawName`, then a usage
string synthesized by folding over `CommandClass.args?.args || []`
(`<name>`/`<...name>` for required, `[name]`/`[...name]` for optional,
appended in declaration order to the command path). -/
def resolveUsage (classUsage : String) (cacRawName : Option String)
    (command : String) (clsArgs : Option CommandDefinition) : String :=
  let usage := classUsage
  let usage := if usage == "" then
      (match cacRawName with | some r => r | none => usage)
    else usage
  if usage == "" then
    let args := (clsArgs.getD {}).args.getD []
    args.foldl (fun acc arg =>
      let isVariadic := sEndsWith arg.name "..."
      let cleanName := if isVariadic then dropLast3 arg.name else arg.name
      if arg.required then
        acc ++ (if isVariadic then " <..." ++ cleanName ++ ">" else " <" ++ cleanName ++ ">")
      else
        acc ++ (if isVariadic then " [..." ++ cleanName ++ "]" else " [" ++ cleanName ++ "]"))
      command
  else usage

/-! ## Command initialization (`src/BaseCommand.ts`) -/

/-- Observable outcome of `BaseCommand.init`. -/
structure InitOutcome where
  projectRoot : Option String := none
  errorMsg : Option String := none
  exitCode : Option Nat := none
  configLoaded : Bool := false

/-- JS truthiness of an optional string (absent or `''` falsy). -/
def optStrTruthy : Option String → Bool
  | none => false
  | some s => !(s == "")

/-- The exact message literal that `BaseCommand.init` in `src/BaseCommand.ts`
passes to `this.error` when a project is required but none found. -/
def projectRequiredFixedMsg : String :=
  "This command requires to be run within an app project (app.yml not found)."

/-- `BaseCommand.init` of `src/BaseCommand.ts`: root detection
(`--root-dir` override, else `findProjectRoot`, whose result is the
`findResult` parameter), the `requiresProject` check (error + exit 1 with the
fixed message literal), then config loading.  `cliName` is `this.cli.name`;
note the source does not use it in the error message. -/
def baseInit (cliName : String) (rootDirOpt : Option String)
    (requiresProject : Bool) (findResult : Option String) : InitOutcome :=
  let projectRoot := if optStrTruthy rootDirOpt then rootDirOpt else findResult
  let _ := cliName
  if requiresProject && !(optStrTruthy projectRoot) then
    { projectRoot := projectRoot, errorMsg := some projectRequiredFixedMsg,
      exitCode := some 1 }
  else
    { projectRoot := projectRoot, configLoaded := optStrTruthy projectRoot }

/-- The error message built by `runInit` of the alternate `BaseCommand`
shipped in the repository (src/unnamed/part_003, lines 41-48), which does
interpolate the configured CLI name. -/
def runInitProjectMsg (cliName : String) : String :=
  "This command requires to be run within an app project (" ++ cliName ++
    ".yml not found)."

/-! ## Derived option keys (spec §3: "Option identifiers are derived by
stripping leading dashes and converting kebab-case to the case scheme used
for runtime lookup") -/

/-- First token of a flag string (up to the first space): `"--repo <url>"`
has flag token `"--repo"`. -/
def takeUntilSpace (l : List Char) : List Char :=
  l.takeWhile (fun c => !(c == ' '))

/-- Strip the leading dashes of a flag token. -/
def dropLeadingDashes (l : List Char) : List Char :=
  l.dropWhile (fun c => c == '-')

/-- Kebab-case to camelCase conversion (`dry-run` to `dryRun`), as the
underlying parser performs for runtime option keys. -/
def camelize : List Char → List Char
  | [] => []
  | '-' :: c :: rest => c.toUpper :: camelize rest
  | c :: rest => c :: camelize rest

/-- Modelled from the spec: the derived runtime key of an `OptionSpec` flag
form — leading dashes stripped, kebab-case converted to camelCase.  (The
derivation itself lives in the external parser, not in this repository's
sources; the spec describes it in §3.) -/
def derivedKey (flag : String) : String :=
  String.mk (camelize (dropLeadingDashes (takeUntilSpace flag.data)))

/-! ## Fixture: the nested-defaults scenario of
`test/unit/commands/help.test.ts` ("should apply default option values for
nested subcommands") -/

/-- The `MockNestedCommand.args.options` declared by the test. -/
def nestedOptions : List OptionSpec :=
  [ { name := "--repo <url>", description := some "Repository URL",
      dflt := some (Value.str "https://github.com/default/repo") },
    { name := "--force", description := some "Force action",
      dflt := some (Value.bool false) },
    { name := "--dry-run", description := some "Dry run",
      dflt := some (Value.bool false) } ]

/-- The registry of the test: a single command `"nested command"` whose class
declares the three options above and no positional arguments. -/
def nestedRegistry : List LoadedCommand :=
  [ { command := "nested command",
      cls := { usage := "nested command",
               description := "A nested command with defaults",
               args := some { options := some nestedOptions } } } ]

/-! ## Helper lemmas -/

/-- Concatenation of a list of strings (specification-side companion of the
string-building folds in the source). -/
def joinAll : List String → String
  | [] => ""
  | s :: rest => s ++ joinAll rest

/-- Modelled from the spec (§4.3): the grammar slot an `ArgumentSpec`
contributes for a leaf command — always the optional bracket form,
independent of `required`. -/
def optionalSlot (a : ArgumentSpec) : String :=
  if sEndsWith a.name "..." then " [..." ++ dropLast3 a.name ++ "]"
  else " [" ++ a.name ++ "]"

/-- Modelled from the spec (§4.2/§8): the usage fragment a positional spec
contributes to synthesized usage — `<name>`/`<...name>` when required,
`[name]`/`[...name]` when optional. -/
def specUsageSlot (a : ArgumentSpec) : String :=
  if a.required then
    (if sEndsWith a.name "..." then " <..." ++ dropLast3 a.name ++ ">"
     else " <" ++ a.name ++ ">")
  else
    (if sEndsWith a.name "..." then " [..." ++ dropLast3 a.name ++ "]"
     else " [" ++ a.name ++ "]")

/-- A file nested under a chain of directories: `nestDirs [d1, ..., dn] e`
is the tree `d1/d2/.../dn/e`, each directory holding a single child. -/
def nestDirs : List String → FSEntry → FSEntry
  | [], e => e
  | d :: rest, e => FSEntry.dir d [nestDirs rest e]

theorem foldl_append_joinAll {α : Type} (g : String → α → String) (f : α → String)
    (hg : ∀ (acc : String) (x : α), g acc x = acc ++ f x) :
    ∀ (l : List α) (acc : String), l.foldl g acc = acc ++ joinAll (l.map f) := by
  intro l
  induction l with
  | nil => intro acc; simp [joinAll, String.append_empty]
  | cons x t ih =>
    intro acc
    simp only [List.foldl_cons, List.map_cons, joinAll, ih, hg]
    rw [String.append_assoc]

theorem sEndsWith_append (s t : String) : sEndsWith (s ++ t) t = true := by
  rw [sEndsWith, List.isPrefixOf_iff_prefix, String.data_append, List.reverse_append]
  exact List.prefix_append _ _

theorem dropLast3_append3 (c e : String) (he : e.data.length = 3) :
    dropLast3 (c ++ e) = c := by
  rw [dropLast3, String.data_append, List.length_append, he, Nat.add_sub_cancel,
    List.take_left]

theorem mapSpecsLeaf_nil_errors (cmdParts : List String) :
    ∀ (specs : List ArgumentSpec) (index : Nat) (opts : Options),
      (mapSpecsLeaf cmdParts [] specs index opts).2.1.length
        = specs.countP (fun a => a.required) := by
  intro specs
  induction specs with
  | nil => intro index opts; simp [mapSpecsLeaf]
  | cons a t ih =>
    intro index opts
    cases hr : a.required <;>
      simp [mapSpecsLeaf, List.getElem?_nil, hr, ih, List.countP_cons]

theorem mapSpecsNs_nil_errors (cmdParts : List String) :
    ∀ (specs : List ArgumentSpec) (index : Nat) (opts : Options),
      (mapSpecsNs cmdParts [] specs index opts).2.1.length
        = specs.countP (fun a => a.required) := by
  intro specs
  induction specs with
  | nil => intro index opts; simp [mapSpecsNs]
  | cons a t ih =>
    intro index opts
    cases hr : a.required <;>
      simp [mapSpecsNs, List.getElem?_nil, hr, ih, List.countP_cons]

theorem scanFile_bad (pfx pathAcc : List String) (f : String) :
    scanFile pfx pathAcc f ModuleLoad.throws = []
    ∧ scanFile pfx pathAcc f (ModuleLoad.loads none) = [] := by
  constructor <;> (simp only [scanFile]; split <;> simp [mkFromLoad])

theorem scanEntry_nestDirs (e : FSEntry) :
    ∀ (ds pfx pathAcc : List String),
      scanEntry pfx pathAcc (nestDirs ds e)
        = scanEntry (pfx ++ ds) (pathAcc ++ ds) e := by
  intro ds
  induction ds with
  | nil => intro pfx pathAcc; simp [nestDirs]
  | cons d rest ih =>
    intro pfx pathAcc
    simp only [nestDirs, scanEntry, scanList, List.append_nil, ih]
    simp only [List.append_assoc, List.singleton_append]

theorem scanList_nestDirs (e : FSEntry) (ds pfx pathAcc : List String) :
    scanList pfx pathAcc [nestDirs ds e]
      = scanEntry (pfx ++ ds) (pathAcc ++ ds) e := by
  simp only [scanList, List.append_nil]
  exact scanEntry_nestDirs e ds pfx pathAcc

theorem scanFile_index_nested (ext : String) (cls : CommandClass)
    (hext : ext = ".ts" ∨ ext = ".js")
    (ds pathAcc : List String) (hne : ds ≠ []) :
    scanFile ds pathAcc ("index" ++ ext) (ModuleLoad.loads (some cls))
      = [{ command := String.intercalate " " ds,
           path := pathAcc ++ ["index" ++ ext], cls := cls }] := by
  have hexec : (sEndsWith ("index" ++ ext) ".ts" || sEndsWith ("index" ++ ext) ".js") = true := by
    rcases hext with h | h <;> subst h <;> decide
  have hnd : sEndsWith ("index" ++ ext) ".d.ts" = false := by
    rcases hext with h | h <;> subst h <;> decide
  have hbase : dropLast3 ("index" ++ ext) = "index" := by
    rcases hext with h | h <;> subst h <;> decide
  have hlen : (ds.length == 0) = false := by
    simp [List.length_eq_zero, hne]
  simp [scanFile, hexec, hnd, hbase, hlen, mkFromLoad]

/-! ## Claim theorems -/

/-- C1: the claim states that namespace child dispatch fills every declared
`OptionSpec` whose derived runtime key is absent from the options object with
its static default before `runCommand`.  The code does not: in the scenario of
the repository's own test `should apply default option values for nested
subcommands` (command `nested command` declaring `--repo <url>`, `--force`,
`--dry-run`, all with defaults, invoked with an empty options object), the
namespace closure hands `runCommand` an options object that still lacks every
derived key (`repo`, `force`, `dryRun`), although each declared `OptionSpec`
has a static default. -/
theorem nested_defaults_not_applied :
    (namespaceAction "nested" nestedRegistry (some "command") [] []).invoked
        = some (["nested", "command"], ([] : Options))
    ∧ derivedKey "--repo <url>" = "repo"
    ∧ derivedKey "--force" = "force"
    ∧ derivedKey "--dry-run" = "dryRun"
    ∧ nestedOptions.all (fun o => o.dflt.isSome) = true
    ∧ getOpt [] "repo" = none
    ∧ getOpt [] "force" = none
    ∧ getOpt [] "dryRun" = none :=
  ⟨rfl, rfl, rfl, rfl, rfl, rfl, rfl, rfl⟩

/-- C2: the claim states that the project-required failure message names the
expected config file using the configured program name.  `BaseCommand.init`
of `src/BaseCommand.ts` does exit with status 1, but its message is a fixed
literal naming `app.yml`: for a CLI configured as `astrical` the message does
not contain `astrical.yml`.  The alternate `runInit` (src/unnamed/part_003)
builds the message the claim describes. -/
theorem requires_project_message_is_fixed :
    (baseInit "astrical" none true none).exitCode = some 1
    ∧ (baseInit "astrical" none true none).errorMsg = some projectRequiredFixedMsg
    ∧ strContains projectRequiredFixedMsg "app.yml" = true
    ∧ strContains projectRequiredFixedMsg "astrical.yml" = false
    ∧ runInitProjectMsg "astrical"
        = "This command requires to be run within an app project (astrical.yml not found)."
    ∧ strContains (runInitProjectMsg "astrical") "astrical.yml" = true :=
  ⟨rfl, rfl, by decide, by decide, rfl, by decide⟩

/-- C3: for a leaf command whose first `ArgumentSpec` is required, dispatch
with no positional values prints `Missing required argument: <name>` (with
the stripped spec name) first, renders contextual help for the command's
path, and schedules `process.exit(1)`. -/
theorem missing_required_argument_reported
    (cmdCommand : String) (argsDef : CommandDefinition) (spec : ArgumentSpec)
    (rest : List ArgumentSpec) (options : Options)
    (hargs : argsDef.args = some (spec :: rest))
    (hreq : spec.required = true)
    (hhelp : jsTruthy (getOpt options "help") = false) :
    (leafAction cmdCommand (some argsDef) [] options).errors.head?
        = some ("Missing required argument: " ++ stripName spec)
    ∧ [cmdCommand] ∈ (leafAction cmdCommand (some argsDef) [] options).helps
    ∧ (1 : Nat) ∈ (leafAction cmdCommand (some argsDef) [] options).scheduledExits := by
  simp only [leafAction, hhelp, Bool.false_eq_true, if_false, Option.getD_some, hargs]
  simp only [mapSpecsLeaf, List.getElem?_nil, hreq, if_true]
  exact ⟨rfl, List.mem_cons_self _ _, List.mem_cons_self _ _⟩

theorem missing_required_argument_reported_witness :
    ({ args := some [{ name := "name", required := true }] } : CommandDefinition).args
        = some [{ name := "name", required := true }]
    ∧ ({ name := "name", required := true } : ArgumentSpec).required = true
    ∧ jsTruthy (getOpt [] "help") = false
    ∧ (leafAction "greet"
        (some { args := some [{ name := "name", required := true }] }) [] []).errors.head?
        = some "Missing required argument: name" := by
  refine ⟨rfl, rfl, rfl, ?_⟩
  exact (missing_required_argument_reported "greet"
    { args := some [{ name := "name", required := true }] }
    { name := "name", required := true } [] [] rfl rfl rfl).1

/-- C4: in both dispatch closures, detecting (and reporting) a missing
required positional does not stop the mapping loop nor prevent the target
invocation: with no positionals supplied, one error line is produced per
required spec (the loop visits all of them) while `runCommand` is still
reached, and no synchronous exit happens — the help render and the exit are
only scheduled. -/
theorem missing_required_continues_and_invokes
    (cmdCommand root sub : String) (argsDef : CommandDefinition)
    (specs : List ArgumentSpec) (options : Options)
    (cmds : List LoadedCommand) (cmd : LoadedCommand)
    (hargs : argsDef.args = some specs)
    (hmiss : specs.countP (fun a => a.required) ≠ 0)
    (hhelp : jsTruthy (getOpt options "help") = false)
    (hsub : sub ≠ "")
    (hfind : cmds.find? (fun c => c.command == root ++ " " ++ sub) = some cmd)
    (hcargs : cmd.cls.args = some argsDef) :
    ((leafAction cmdCommand (some argsDef) [] options).errors.length
        = specs.countP (fun a => a.required)
      ∧ (leafAction cmdCommand (some argsDef) [] options).invoked.isSome = true
      ∧ (leafAction cmdCommand (some argsDef) [] options).syncExit = none)
    ∧ ((namespaceAction root cmds (some sub) [] options).errors.length
        = specs.countP (fun a => a.required)
      ∧ (namespaceAction root cmds (some sub) [] options).invoked.isSome = true
      ∧ (namespaceAction root cmds (some sub) [] options).syncExit = none) := by
  have hs : subTruthy (some sub) = true := by simp [subTruthy, hsub]
  constructor
  · simp only [leafAction, hhelp, Bool.false_eq_true, if_false, Option.getD_some, hargs]
    refine ⟨mapSpecsLeaf_nil_errors _ _ _ _, ?_, ?_⟩ <;> trivial
  · simp only [namespaceAction, hs, hhelp, Bool.not_true, Bool.false_or, Bool.or_false,
      Bool.false_eq_true, if_false, Option.getD_some, hfind, hcargs, hargs]
    refine ⟨mapSpecsNs_nil_errors _ _ _ _, ?_, ?_⟩ <;> trivial

theorem missing_required_continues_and_invokes_witness :
    (({ args := some [{ name := "p1", required := true },
        { name := "p2", required := true }] } : CommandDefinition).args).isSome = true
    ∧ (leafAction "greet"
        (some { args := some [{ name := "p1", required := true },
          { name := "p2", required := true }] }) [] []).errors.length = 2
    ∧ (namespaceAction "sys"
        [{ command := "sys config",
           cls := { args := some { args := some [{ name := "p1", required := true },
             { name := "p2", required := true }] } } }]
        (some "config") [] []).errors.length = 2
    ∧ (namespaceAction "sys"
        [{ command := "sys config",
           cls := { args := some { args := some [{ name := "p1", required := true },
             { name := "p2", required := true }] } } }]
        (some "config") [] []).invoked.isSome = true := by
  have h := missing_required_continues_and_invokes "greet" "sys" "config"
    { args := some [{ name := "p1", required := true }, { name := "p2", required := true }] }
    [{ name := "p1", required := true }, { name := "p2", required := true }] []
    [{ command := "sys config",
       cls := { args := some { args := some [{ name := "p1", required := true },
         { name := "p2", required := true }] } } }]
    { command := "sys config",
      cls := { args := some { args := some [{ name := "p1", required := true },
        { name := "p2", required := true }] } } }
    rfl (by decide) rfl (by decide) rfl rfl
  exact ⟨rfl, h.1.1, h.2.1, h.2.2.1⟩

/-- C5: a namespace group invoked with a second token matching no member's
full path prints exactly `Unknown subcommand '<token>' for '<root>'`, exits
synchronously with status 1, and invokes no command. -/
theorem unknown_subcommand_rejected (root sub : String) (cmds : List LoadedCommand)
    (rawArgs : List Value) (options : Options)
    (hsub : sub ≠ "")
    (hhelp : jsTruthy (getOpt options "help") = false)
    (hfind : cmds.find? (fun c => c.command == root ++ " " ++ sub) = none) :
    namespaceAction root cmds (some sub) rawArgs options
      = { errors := ["Unknown subcommand " ++ sq ++ sub ++ sq ++ " for " ++ sq ++ root ++ sq],
          syncExit := some 1 } := by
  have hs : subTruthy (some sub) = true := by simp [subTruthy, hsub]
  simp only [namespaceAction, hs, hhelp, Bool.not_true, Bool.false_or, Bool.or_false,
    Bool.false_eq_true, if_false, Option.getD_some, hfind]

theorem unknown_subcommand_rejected_witness :
    ("bogus" : String) ≠ ""
    ∧ jsTruthy (getOpt [] "help") = false
    ∧ ([{ command := "module add", cls := {} }] : List LoadedCommand).find?
        (fun c => c.command == "module" ++ " " ++ "bogus") = none
    ∧ namespaceAction "module" [{ command := "module add", cls := {} }]
        (some "bogus") [] []
      = { errors := ["Unknown subcommand " ++ sq ++ "bogus" ++ sq ++ " for "
            ++ sq ++ "module" ++ sq],
          syncExit := some 1 } := by
  refine ⟨by decide, rfl, rfl, ?_⟩
  exact unknown_subcommand_rejected "module" "bogus"
    [{ command := "module add", cls := {} }] [] [] (by decide) rfl rfl

/-- C6: when the raw argument vector contains `--help` or `-h` and the
arguments after the program prefix contain no token not starting with a dash,
global help is rendered and the process exits 0 before `cli.parse()` is
reached. -/
theorem bare_help_flag_short_circuits (argv : List String)
    (hflag : "--help" ∈ argv ∨ "-h" ∈ argv)
    (hnoncmd : (argv.drop 2).filter (fun a => !(sStartsWith a "-")) = []) :
    globalHelpIntercept argv = { helps := [[]], exitCode := some 0, parsed := false } := by
  have hc : (argv.contains "--help" || argv.contains "-h") = true := by
    simpa using hflag
  simp only [globalHelpIntercept, hc, if_true, hnoncmd]
  rfl

theorem bare_help_flag_short_circuits_witness :
    ("--help" ∈ ["node", "cli", "--help"] ∨ "-h" ∈ ["node", "cli", "--help"])
    ∧ (["node", "cli", "--help"].drop 2).filter (fun a => !(sStartsWith a "-")) = []
    ∧ globalHelpIntercept ["node", "cli", "--help"]
        = { helps := [[]], exitCode := some 0, parsed := false } := by
  refine ⟨Or.inl (by decide), by decide, ?_⟩
  exact bare_help_flag_short_circuits ["node", "cli", "--help"]
    (Or.inl (by decide)) (by decide)

/-- C7: leaf grammar registration renders every `ArgumentSpec` as an optional
bracket slot (`[name]` / `[...name]`), independent of its `required` flag:
the registered string is the command token followed by the optional slot of
each spec in order, and the slot of a spec does not change when its
`required` flag is flipped. -/
theorem leaf_grammar_slots_always_optional (cmdCommand : String)
    (argsDef : CommandDefinition) :
    leafCommandName cmdCommand (some argsDef)
        = cmdCommand ++ joinAll (((argsDef.args).getD []).map optionalSlot)
    ∧ ∀ a : ArgumentSpec, optionalSlot { a with required := true }
        = optionalSlot { a with required := false } := by
  constructor
  · cases hargs : argsDef.args with
    | none => simp [leafCommandName, hargs, joinAll, String.append_empty]
    | some specs =>
      simp only [leafCommandName, Option.getD_some, hargs]
      exact foldl_append_joinAll _ optionalSlot (fun acc arg => by
        cases h : sEndsWith arg.name "..." <;> simp [optionalSlot, h]) specs cmdCommand
  · intro a; rfl

/-- C8: discovery maps a file at segments `[a, b, c.ext]` (for a recognized
executable extension) to command path `"a b c"`; a file named `index.ext`
under any nonempty directory chain `ds` (depth ≥ 1) to the command path
equal to that chain joined by spaces; and a root-level `index.ext` (depth 0)
to no registry entry at all. -/
theorem discovery_maps_paths (a b c ext : String) (ds : List String)
    (cls : CommandClass)
    (hext : ext = ".ts" ∨ ext = ".js")
    (hc : c ≠ "index")
    (hnd : sEndsWith (c ++ ext) ".d.ts" = false)
    (hne : ds ≠ []) :
    scanList [] [] [nestDirs [a, b]
        (FSEntry.file (c ++ ext) (ModuleLoad.loads (some cls)))]
      = [{ command := String.intercalate " " [a, b, c],
           path := [a, b, c ++ ext], cls := cls }]
    ∧ scanList [] [] [nestDirs ds
        (FSEntry.file ("index" ++ ext) (ModuleLoad.loads (some cls)))]
      = [{ command := String.intercalate " " ds,
           path := ds ++ ["index" ++ ext], cls := cls }]
    ∧ scanList [] [] [FSEntry.file ("index" ++ ext) (ModuleLoad.loads (some cls))]
      = [] := by
  have hexec : (sEndsWith (c ++ ext) ".ts" || sEndsWith (c ++ ext) ".js") = true := by
    rcases hext with h | h <;> simp [h, sEndsWith_append]
  have hbase : dropLast3 (c ++ ext) = c := by
    rcases hext with h | h <;> subst h <;> exact dropLast3_append3 c _ rfl
  have hcc : (c != "index") = true := by simp [hc]
  have hbaseI : dropLast3 ("index" ++ ext) = "index" := by
    rcases hext with h | h <;> subst h <;> decide
  have hexecI : (sEndsWith ("index" ++ ext) ".ts" || sEndsWith ("index" ++ ext) ".js") = true := by
    rcases hext with h | h <;> subst h <;> decide
  have hndI : sEndsWith ("index" ++ ext) ".d.ts" = false := by
    rcases hext with h | h <;> subst h <;> decide
  refine ⟨?_, ?_, ?_⟩
  · rw [scanList_nestDirs]
    simp [scanEntry, scanFile, mkFromLoad, hexec, hnd, hbase, hcc]
  · rw [scanList_nestDirs]
    simp only [List.nil_append, scanEntry]
    exact scanFile_index_nested ext cls hext ds ds hne
  · simp [scanList, scanEntry, scanFile, hexecI, hndI, hbaseI]

theorem discovery_maps_paths_witness :
    ((".ts" : String) = ".ts" ∨ (".ts" : String) = ".js")
    ∧ ("add" : String) ≠ "index"
    ∧ sEndsWith ("add" ++ ".ts") ".d.ts" = false
    ∧ (["module"] : List String) ≠ []
    ∧ scanList [] [] [nestDirs ["mod", "sub"]
        (FSEntry.file ("add" ++ ".ts") (ModuleLoad.loads (some {})))]
      = [{ command := String.intercalate " " ["mod", "sub", "add"],
           path := ["mod", "sub", "add" ++ ".ts"], cls := {} }]
    ∧ scanList [] [] [nestDirs ["module"]
        (FSEntry.file ("index" ++ ".ts") (ModuleLoad.loads (some {})))]
      = [{ command := String.intercalate " " ["module"],
           path := ["module", "index" ++ ".ts"], cls := {} }]
    ∧ String.intercalate " " ["mod", "sub", "add"] = "mod sub add"
    ∧ String.intercalate " " ["module"] = "module" := by
  have h := discovery_maps_paths "mod" "sub" "add" ".ts" ["module"] {}
    (Or.inl rfl) (by decide) (by decide) (by decide)
  exact ⟨Or.inl rfl, by decide, by decide, by decide, h.1, h.2.1, rfl, rfl⟩

/-- C9: a candidate file whose import rejects, or whose `default` export is
absent/null, contributes no registry entry, and the scan of the remaining
entries is unaffected. -/
theorem discovery_isolates_bad_files (f : String) (pfx pathAcc : List String)
    (rest : List FSEntry) :
    scanList pfx pathAcc (FSEntry.file f ModuleLoad.throws :: rest)
        = scanList pfx pathAcc rest
    ∧ scanList pfx pathAcc (FSEntry.file f (ModuleLoad.loads none) :: rest)
        = scanList pfx pathAcc rest := by
  constructor
  · simp [scanList, scanEntry, (scanFile_bad pfx pathAcc f).1]
  · simp [scanList, scanEntry, (scanFile_bad pfx pathAcc f).2]

/-- C10: with no explicit `usage` and no parser record, the help renderer
synthesizes usage from the declared positional specs in order; in
particular `files...` renders ` <...files>` when required and ` [...files]`
when optional. -/
theorem usage_synthesis_from_args (command : String) (args : List ArgumentSpec) :
    resolveUsage "" none command (some { args := some args })
        = command ++ joinAll (args.map specUsageSlot)
    ∧ resolveUsage "" none "variadic"
        (some { args := some [{ name := "files...", required := true }] })
        = "variadic <...files>"
    ∧ resolveUsage "" none "variadic"
        (some { args := some [{ name := "files...", required := false }] })
        = "variadic [...files]" := by
  refine ⟨?_, rfl, rfl⟩
  exact foldl_append_joinAll _ specUsageSlot (fun acc arg => by
    cases h : sEndsWith arg.name "..." <;> cases hr : arg.required <;>
      simp [specUsageSlot, h, hr]) args command

end CliCore
